import Mathlib

/-!
# Shallow embedding of the anti-entropy broadcast node

This file embeds the broadcast node of `src/solutions/src/bin/broadcast.rs`
together with the envelope layer of `src/solutions/src/message.rs`, and
proves the specification claims about it.

Modelling conventions:
* Rust `usize` values (message ids, broadcast values) are `Nat`; the code never
  exercises wrap-around, and the claims are about identity of values, not
  arithmetic, so no modular reduction is needed.
* `HashMap<String, RemoteNode>` is an association list with HashMap `insert`
  (replace-or-append) semantics; `HashSet<usize>` is a duplicate-free-by-use
  list with insert-if-absent semantics.
* The global `MSG_ID: AtomicUsize` counter is threaded explicitly through the
  handler and the scheduler as a `Nat`.
* Every `.unwrap()` on a fallible operation (a missing map key, a zero stride
  divisor, a missing membership position) makes the operation partial: the
  embedding returns `Option`, `none` standing for the Rust panic.
-/

namespace Maelstrom

/-- `Body<M>` of `message.rs`: optional request id, optional correlation id,
and the tagged payload. -/
structure Body (M : Type) where
  msg_id : Option Nat
  in_reply_to : Option Nat
  message : M
  deriving DecidableEq, Repr

/-- `Envelope<M>` of `message.rs`: source id, destination id, body. -/
structure Envelope (M : Type) where
  source : String
  destination : String
  body : Body M
  deriving DecidableEq, Repr

/-- `Envelope::new` of `message.rs`. -/
def Envelope.new {M : Type} (src dest : String) (body : Body M) : Envelope M :=
  { source := src, destination := dest, body := body }

/-- `Envelope::reply_with` of `message.rs`: swap source/destination, set
`in_reply_to` to the incoming `msg_id`. -/
def Envelope.reply_with {M : Type} (e : Envelope M) (msg_id : Option Nat) (message : M) :
    Envelope M :=
  { source := e.destination
    destination := e.source
    body := { msg_id := msg_id, in_reply_to := e.body.msg_id, message := message } }

/-- The `Payload` enum of `broadcast.rs`. -/
inductive Payload where
  | Init (node_id : String) (node_ids : List String)
  | InitOk
  | Broadcast (message : Nat)
  | BroadcastOk
  | Read
  | ReadOk (messages : List Nat)
  | Topology (topology : List (String × List String))
  | TopologyOk
  | Sync (messages : List Nat)
  | SyncOk (messages : List Nat)
  deriving DecidableEq, Repr

/-- `RemoteNode` of `broadcast.rs`: a neighbor's id together with the values
sent to it but not yet acknowledged (its PeerPending queue). -/
structure RemoteNode where
  node_id : String
  unacknowledged_messages : List Nat
  deriving DecidableEq, Repr

/-- `RemoteNode::default()`. -/
def RemoteNode.default : RemoteNode :=
  { node_id := "", unacknowledged_messages := [] }

/-- `RemoteNode::send_message`: push one value onto the pending queue. -/
def RemoteNode.send_message (rn : RemoteNode) (message : Nat) : RemoteNode :=
  { rn with unacknowledged_messages := rn.unacknowledged_messages ++ [message] }

/-- `RemoteNode::acknowledge_synced`: `retain(|m| !messages.contains(m))`. -/
def RemoteNode.acknowledge_synced (rn : RemoteNode) (messages : List Nat) : RemoteNode :=
  { rn with unacknowledged_messages :=
      rn.unacknowledged_messages.filter (fun m => decide (m ∉ messages)) }

/-- `RemoteNode::has_unacknowledged_messages`. -/
def RemoteNode.has_unacknowledged_messages (rn : RemoteNode) : Bool :=
  !rn.unacknowledged_messages.isEmpty

/-- The nodes map `HashMap<String, RemoteNode>` as an association list. -/
abbrev NodeMap := List (String × RemoteNode)

/-- `HashMap::get` (first entry with the key). -/
def assocGet (m : NodeMap) (k : String) : Option RemoteNode :=
  match m with
  | [] => none
  | p :: rest => if p.1 = k then some p.2 else assocGet rest k

/-- `HashMap::insert`: replace the value at the key if present, else add the
entry. -/
def assocInsert (m : NodeMap) (k : String) (v : RemoteNode) : NodeMap :=
  match m with
  | [] => [(k, v)]
  | p :: rest => if p.1 = k then (k, v) :: rest else p :: assocInsert rest k v

/-- `HashMap::get_mut(k).unwrap()` followed by an in-place update: `none`
models the panic when the key is absent. -/
def assocModify (m : NodeMap) (k : String) (f : RemoteNode → RemoteNode) :
    Option NodeMap :=
  match m with
  | [] => none
  | p :: rest =>
    if p.1 = k then some ((p.1, f p.2) :: rest)
    else
      match assocModify rest k f with
      | none => none
      | some rest' => some (p :: rest')

/-- The `State` struct of `broadcast.rs` (`tick_rate` kept as milliseconds). -/
structure State where
  my_id : String
  all_node_ids : List String
  neighbors : List String
  nodes : NodeMap
  messages : List Nat
  stride : Nat
  tick_rate : Nat
  deriving DecidableEq, Repr

/-- `State::seen_messages`: iterate the value set. -/
def State.seen_messages (st : State) : List Nat :=
  st.messages

/-- `Iterator::position(|node_id| node_id == &state.my_id)`: index of the
first occurrence. -/
def position (l : List String) (x : String) : Option Nat :=
  match l with
  | [] => none
  | a :: rest => if a = x then some 0 else (position rest x).map (· + 1)

/-- Worker for `step_by`: `k` counts down the elements still to skip before
the next one is kept; after keeping an element, `s - 1` more are skipped. -/
def stepByAux {α : Type} (s : Nat) : Nat → List α → List α
  | _, [] => []
  | 0, a :: rest => a :: stepByAux s (s - 1) rest
  | k + 1, _ :: rest => stepByAux s k rest

/-- `Iterator::step_by(s)`: every `s`-th element starting with the first.
(Rust panics on `s = 0`; the caller guards that case.) -/
def stepBy {α : Type} (s : Nat) (l : List α) : List α :=
  stepByAux s 0 l

/-- The per-neighbor fan-out loop of the `Broadcast` and `Sync` arms:
`state.nodes.get_mut(&neighbor).unwrap().send_message(message)` for each
neighbor in order; `none` models the panic on a neighbor missing from the
nodes map. -/
def sendToNeighbors (nodes : NodeMap) (neighbors : List String) (message : Nat) :
    Option NodeMap :=
  match neighbors with
  | [] => some nodes
  | n :: rest =>
    match assocModify nodes n (fun rn => rn.send_message message) with
    | none => none
    | some nodes' => sendToNeighbors nodes' rest message

/-- The loop of the `Sync` arm: for each inbound value not already known,
insert it and fan it out to every neighbor's pending queue. -/
def syncFold (st : State) (inbound : List Nat) : Option State :=
  match inbound with
  | [] => some st
  | m :: rest =>
    if m ∈ st.messages then syncFold st rest
    else
      match sendToNeighbors st.nodes st.neighbors m with
      | none => none
      | some nodes' =>
        syncFold { st with messages := st.messages ++ [m], nodes := nodes' } rest

/-- `handle_envelope` of `broadcast.rs`. The first argument is the value of
the global `MSG_ID` counter; the result carries the updated counter, the
updated state, and the envelopes written to the outbound channel, in order.
`none` models a panic inside the handler. -/
def handle_envelope (c : Nat) (st : State) (envelope : Envelope Payload) :
    Option (Nat × State × List (Envelope Payload)) :=
  match envelope.body.message with
  | .Init node_id node_ids =>
    some (c + 1, { st with my_id := node_id, all_node_ids := node_ids },
      [envelope.reply_with (some c) .InitOk])
  | .Topology _ =>
    match position st.all_node_ids st.my_id with
    | none => none
    | some our_position =>
      if st.stride = 0 then none
      else
        let neighbors :=
          stepBy st.stride (st.all_node_ids.drop ((our_position + 1) % st.stride))
        let nodes :=
          neighbors.foldl (fun m neighbor => assocInsert m neighbor RemoteNode.default)
            st.nodes
        some (c + 1, { st with neighbors := neighbors, nodes := nodes },
          [envelope.reply_with (some c) .TopologyOk])
  | .Broadcast message =>
    if message ∈ st.messages then
      some (c + 1, st, [envelope.reply_with (some c) .BroadcastOk])
    else
      match sendToNeighbors st.nodes st.neighbors message with
      | none => none
      | some nodes' =>
        some (c + 1, { st with messages := st.messages ++ [message], nodes := nodes' },
          [envelope.reply_with (some c) .BroadcastOk])
  | .Read =>
    some (c + 1, st, [envelope.reply_with (some c) (.ReadOk st.seen_messages)])
  | .Sync inbound =>
    match syncFold st inbound with
    | none => none
    | some st' =>
      some (c + 1, st', [envelope.reply_with (some c) (.SyncOk inbound)])
  | .SyncOk acknowledged_messages =>
    match assocModify st.nodes envelope.source
        (fun rn => rn.acknowledge_synced acknowledged_messages) with
    | none => none
    | some nodes' => some (c, { st with nodes := nodes' }, [])
  | _ => some (c, st, [])

/-- The payload kinds that have a dedicated arm in `handle_envelope`'s
match; every other kind falls to the wildcard arm `_ => {}`. -/
def handledKind : Payload → Bool
  | .Init _ _ => true
  | .Topology _ => true
  | .Broadcast _ => true
  | .Read => true
  | .Sync _ => true
  | .SyncOk _ => true
  | _ => false

/-- The loop body of one tick of `gossip_every_so_often`: walk the nodes map
in order and, for each neighbor with pending values, emit one `sync` envelope
carrying the whole pending list, drawing one fresh message id per envelope. -/
def gossipOuts (my_id : String) (c : Nat) :
    NodeMap → Nat × List (Envelope Payload)
  | [] => (c, [])
  | (neighbor, node) :: rest =>
    if node.has_unacknowledged_messages then
      ((gossipOuts my_id (c + 1) rest).1,
        Envelope.new my_id neighbor
            { msg_id := some c, in_reply_to := none,
              message := .Sync node.unacknowledged_messages }
          :: (gossipOuts my_id (c + 1) rest).2)
    else gossipOuts my_id c rest

/-- One tick of `gossip_every_so_often`: reads the state, never writes it. -/
def gossipTick (c : Nat) (st : State) : Nat × State × List (Envelope Payload) :=
  ((gossipOuts st.my_id c st.nodes).1, st, (gossipOuts st.my_id c st.nodes).2)

/-- One scheduling step of the node: either an inbound envelope is handled or
the scheduler ticks. -/
inductive Step where
  | inbound (env : Envelope Payload)
  | tick
  deriving DecidableEq, Repr

/-- Run one step. -/
def stepRun (c : Nat) (st : State) : Step → Option (Nat × State × List (Envelope Payload))
  | .inbound env => handle_envelope c st env
  | .tick => some (gossipTick c st)

/-- Run a sequence of steps, accumulating every envelope the node emits. -/
def runTrace (c : Nat) (st : State) : List Step → Option (Nat × State × List (Envelope Payload))
  | [] => some (c, st, [])
  | s :: rest =>
    match stepRun c st s with
    | none => none
    | some (c', st', outs) =>
      match runTrace c' st' rest with
      | none => none
      | some (c'', st'', outs') => some (c'', st'', outs ++ outs')

/-! ## Helper lemmas: membership position and `step_by` -/

/-- `position` finds exactly the index of the unique occurrence. -/
theorem position_eq_some_of_unique (l : List String) (x : String) (p : Nat)
    (hp : l[p]? = some x) (hu : ∀ i, l[i]? = some x → i = p) :
    position l x = some p := by
  induction l generalizing p with
  | nil => simp at hp
  | cons a rest ih =>
    by_cases hax : a = x
    · have h0 : (a :: rest)[0]? = some x := by simp [hax]
      have hp0 := hu 0 h0
      rw [← hp0]
      simp [position, hax]
    · cases p with
      | zero =>
        rw [List.getElem?_cons_zero] at hp
        exact absurd (Option.some.inj hp) hax
      | succ q =>
        rw [List.getElem?_cons_succ] at hp
        have hu' : ∀ i, rest[i]? = some x → i = q := by
          intro i hi
          have hcons : (a :: rest)[i + 1]? = some x := by
            rw [List.getElem?_cons_succ]; exact hi
          have := hu (i + 1) hcons
          omega
        simp [position, hax, ih q hp hu']

/-- The elements produced by the `step_by` worker with countdown `k` are
exactly the elements at the indices `k, k + s, k + 2s, …`. -/
theorem stepByAux_mem {α : Type} (s : Nat) (hs : 0 < s) (l : List α) :
    ∀ (k : Nat) (x : α), x ∈ stepByAux s k l ↔ ∃ j, l[k + j * s]? = some x := by
  induction l with
  | nil => intro k x; simp [stepByAux]
  | cons a rest ih =>
    intro k x
    cases k with
    | zero =>
      simp only [stepByAux, List.mem_cons, ih (s - 1) x]
      constructor
      · rintro (rfl | ⟨j, hj⟩)
        · exact ⟨0, by simp⟩
        · refine ⟨j + 1, ?_⟩
          have hmul : (j + 1) * s = j * s + s := Nat.succ_mul j s
          have harith : 0 + (j + 1) * s = s - 1 + j * s + 1 := by omega
          rw [harith, List.getElem?_cons_succ]
          exact hj
      · rintro ⟨j, hj⟩
        cases j with
        | zero =>
          rw [Nat.zero_mul, List.getElem?_cons_zero] at hj
          exact Or.inl (Option.some.inj hj).symm
        | succ j' =>
          refine Or.inr ⟨j', ?_⟩
          have hmul : (j' + 1) * s = j' * s + s := Nat.succ_mul j' s
          have harith : 0 + (j' + 1) * s = s - 1 + j' * s + 1 := by omega
          rw [harith, List.getElem?_cons_succ] at hj
          exact hj
    | succ k' =>
      simp only [stepByAux, ih k' x]
      constructor
      · rintro ⟨j, hj⟩
        refine ⟨j, ?_⟩
        have harith : k' + 1 + j * s = (k' + j * s) + 1 := by omega
        rw [harith, List.getElem?_cons_succ]
        exact hj
      · rintro ⟨j, hj⟩
        refine ⟨j, ?_⟩
        have harith : k' + 1 + j * s = (k' + j * s) + 1 := by omega
        rw [harith, List.getElem?_cons_succ] at hj
        exact hj

/-- The elements produced by `step_by s` are exactly the elements at the
indices that are multiples of `s`. -/
theorem stepBy_mem {α : Type} (s : Nat) (hs : 0 < s) (l : List α) (x : α) :
    x ∈ stepBy s l ↔ ∃ j, l[j * s]? = some x := by
  rw [stepBy, stepByAux_mem s hs l 0 x]
  simp

/-- Deriving neighbors by `skip k` + `step_by s` (with `k < s`) selects
exactly the elements whose index is congruent to `k` modulo `s`. -/
theorem mem_stepBy_drop {α : Type} (s k : Nat) (hs : 0 < s) (hk : k < s)
    (l : List α) (x : α) :
    x ∈ stepBy s (l.drop k) ↔ ∃ i, i % s = k ∧ l[i]? = some x := by
  rw [stepBy_mem s hs]
  constructor
  · rintro ⟨j, hj⟩
    rw [List.getElem?_drop] at hj
    refine ⟨k + j * s, ?_, hj⟩
    simp [Nat.add_mul_mod_self_right, Nat.mod_eq_of_lt hk]
  · rintro ⟨i, hik, hi⟩
    refine ⟨i / s, ?_⟩
    rw [List.getElem?_drop]
    have h1 := Nat.mod_add_div i s
    have h2 : i / s * s = s * (i / s) := Nat.mul_comm _ _
    have heq : k + i / s * s = i := by omega
    rw [heq]
    exact hi

/-- `step_by 1` keeps every element. -/
theorem stepBy_one {α : Type} (l : List α) : stepBy 1 l = l := by
  induction l with
  | nil => rfl
  | cons a rest ih =>
    show a :: stepByAux 1 0 rest = a :: rest
    rw [show stepByAux 1 0 rest = stepBy 1 rest from rfl, ih]

/-! ## Helper lemmas: the nodes map -/

/-- `assocModify` fails exactly on a missing key. -/
theorem assocModify_eq_none_iff (m : NodeMap) (k : String)
    (f : RemoteNode → RemoteNode) :
    assocModify m k f = none ↔ assocGet m k = none := by
  induction m with
  | nil => simp [assocModify, assocGet]
  | cons p rest ih =>
    by_cases hpk : p.1 = k
    · simp [assocModify, assocGet, hpk]
    · simp only [assocModify, assocGet, hpk, if_false]
      cases hrec : assocModify rest k f with
      | none => simpa [hrec] using ih.mp hrec
      | some rest' =>
        simp only [hrec]
        constructor
        · intro h; cases h
        · intro h
          rw [← ih] at h
          rw [h] at hrec
          cases hrec

/-- Full description of a successful `assocModify`: the modified key now maps
to the image of its old value, every other key is untouched. -/
theorem assocModify_get_all (m m' : NodeMap) (k : String)
    (f : RemoteNode → RemoteNode) (h : assocModify m k f = some m') (N : String) :
    assocGet m' N = if N = k then (assocGet m k).map f else assocGet m N := by
  induction m generalizing m' with
  | nil => cases h
  | cons p rest ih =>
    obtain ⟨k₀, v₀⟩ := p
    by_cases hk : k₀ = k
    · subst hk
      have hm' : m' = (k₀, f v₀) :: rest := by
        have := h
        simp only [assocModify, if_pos rfl] at this
        exact (Option.some.inj this).symm
      subst hm'
      by_cases hN : N = k₀
      · subst hN
        simp [assocGet]
      · simp [assocGet, hN, Ne.symm hN]
    · simp only [assocModify, hk, if_false] at h
      cases hrec : assocModify rest k f with
      | none => rw [hrec] at h; cases h
      | some rest' =>
        rw [hrec] at h
        have hm' : m' = (k₀, v₀) :: rest' := (Option.some.inj h).symm
        subst hm'
        by_cases hN : N = k₀
        · subst hN
          simp [assocGet, hk]
        · rw [show assocGet ((k₀, v₀) :: rest') N = assocGet rest' N by
            simp [assocGet, Ne.symm hN]]
          rw [ih rest' hrec]
          by_cases hNk : N = k
          · simp [hNk, assocGet, hk]
          · simp [hNk, assocGet, Ne.symm hN]

/-- A present key survives `assocModify` with its value mapped (same key) or
kept (other keys). -/
theorem assocModify_get_some (m m' : NodeMap) (k : String)
    (f : RemoteNode → RemoteNode) (h : assocModify m k f = some m')
    (N : String) (rn : RemoteNode) (hget : assocGet m N = some rn) :
    assocGet m' N = some (if N = k then f rn else rn) := by
  rw [assocModify_get_all m m' k f h N]
  by_cases hN : N = k
  · subst hN
    rw [hget]
    simp
  · simp [hN, hget]

/-- The fan-out loop only ever appends to pending queues: any tracked
neighbor is still tracked afterwards and keeps all its pending values. -/
theorem sendToNeighbors_get (neighbors : List String) (nodes nodes' : NodeMap)
    (msg : Nat) (h : sendToNeighbors nodes neighbors msg = some nodes')
    (N : String) (rn : RemoteNode) (hget : assocGet nodes N = some rn) :
    ∃ rn', assocGet nodes' N = some rn' ∧
      ∀ x ∈ rn.unacknowledged_messages, x ∈ rn'.unacknowledged_messages := by
  induction neighbors generalizing nodes rn with
  | nil =>
    simp only [sendToNeighbors] at h
    obtain rfl := Option.some.inj h
    exact ⟨rn, hget, fun x hx => hx⟩
  | cons n rest ih =>
    simp only [sendToNeighbors] at h
    cases hm : assocModify nodes n (fun rn => rn.send_message msg) with
    | none => simp [hm] at h
    | some mid =>
      simp only [hm] at h
      have hmid := assocModify_get_some nodes mid n _ hm N rn hget
      obtain ⟨rn', hg', hsub⟩ :=
        ih mid h (if N = n then rn.send_message msg else rn) hmid
      refine ⟨rn', hg', fun x hx => hsub x ?_⟩
      by_cases hNn : N = n
      · simp only [if_pos hNn, RemoteNode.send_message, List.mem_append]
        exact Or.inl hx
      · simpa [if_neg hNn] using hx

/-! ## Helper lemmas: the sync loop -/

/-- `syncFold` only grows the value set, and afterwards every inbound value
is known; all fields except `messages` and `nodes` are untouched. -/
theorem syncFold_messages (st st' : State) (M : List Nat)
    (h : syncFold st M = some st') :
    (∀ x ∈ st.messages, x ∈ st'.messages) ∧ (∀ m ∈ M, m ∈ st'.messages) ∧
      st'.my_id = st.my_id ∧ st'.all_node_ids = st.all_node_ids ∧
      st'.neighbors = st.neighbors ∧ st'.stride = st.stride ∧
      st'.tick_rate = st.tick_rate := by
  induction M generalizing st with
  | nil =>
    simp only [syncFold] at h
    obtain rfl := Option.some.inj h
    exact ⟨fun x hx => hx, by simp, rfl, rfl, rfl, rfl, rfl⟩
  | cons m rest ih =>
    simp only [syncFold] at h
    by_cases hmem : m ∈ st.messages
    · rw [if_pos hmem] at h
      obtain ⟨h1, h2, h3⟩ := ih st h
      exact ⟨h1, by simpa [hmem] using And.intro (h1 m hmem) h2, h3⟩
    · rw [if_neg hmem] at h
      cases hsend : sendToNeighbors st.nodes st.neighbors m with
      | none => rw [hsend] at h; cases h
      | some nodes' =>
        rw [hsend] at h
        obtain ⟨h1, h2, h3⟩ :=
          ih { st with messages := st.messages ++ [m], nodes := nodes' } h
        refine ⟨fun x hx => h1 x (by simp [hx]), ?_, h3⟩
        intro v hv
        rcases List.mem_cons.mp hv with rfl | hv'
        · exact h1 v (by simp)
        · exact h2 v hv'

/-- If every inbound value is already known, `syncFold` is the identity. -/
theorem syncFold_id (st : State) (M : List Nat)
    (hM : ∀ m ∈ M, m ∈ st.messages) :
    syncFold st M = some st := by
  induction M with
  | nil => simp [syncFold]
  | cons m rest ih =>
    have hm : m ∈ st.messages := hM m (by simp)
    simp only [syncFold, if_pos hm]
    exact ih (fun v hv => hM v (by simp [hv]))

/-- `syncFold` never drops a tracked neighbor or any of its pending values. -/
theorem syncFold_nodes_get (st st' : State) (M : List Nat)
    (h : syncFold st M = some st') (N : String) (rn : RemoteNode)
    (hget : assocGet st.nodes N = some rn) :
    ∃ rn', assocGet st'.nodes N = some rn' ∧
      ∀ x ∈ rn.unacknowledged_messages, x ∈ rn'.unacknowledged_messages := by
  induction M generalizing st rn with
  | nil =>
    simp only [syncFold] at h
    obtain rfl := Option.some.inj h
    exact ⟨rn, hget, fun x hx => hx⟩
  | cons m rest ih =>
    simp only [syncFold] at h
    by_cases hmem : m ∈ st.messages
    · rw [if_pos hmem] at h
      exact ih st h rn hget
    · rw [if_neg hmem] at h
      cases hsend : sendToNeighbors st.nodes st.neighbors m with
      | none => rw [hsend] at h; cases h
      | some nodes' =>
        rw [hsend] at h
        obtain ⟨rn₂, hg₂, hsub₂⟩ :=
          sendToNeighbors_get st.neighbors st.nodes nodes' m hsend N rn hget
        obtain ⟨rn₃, hg₃, hsub₃⟩ :=
          ih { st with messages := st.messages ++ [m], nodes := nodes' } h rn₂ hg₂
        exact ⟨rn₃, hg₃, fun x hx => hsub₃ x (hsub₂ x hx)⟩

/-! ## Helper lemmas: the scheduler tick -/

/-- Every envelope a tick emits is addressed to a key of the nodes map. -/
theorem gossipOuts_dest_mem (my_id : String) (c : Nat) (nodes : NodeMap) :
    ∀ e ∈ (gossipOuts my_id c nodes).2, e.destination ∈ nodes.map Prod.fst := by
  induction nodes generalizing c with
  | nil => simp [gossipOuts]
  | cons p rest ih =>
    obtain ⟨neighbor, node⟩ := p
    intro e he
    by_cases hne : node.has_unacknowledged_messages
    · simp only [gossipOuts, if_pos hne, List.mem_cons] at he
      rcases he with rfl | he'
      · simp [Envelope.new]
      · simp only [List.map_cons, List.mem_cons]
        exact Or.inr (ih (c + 1) e he')
    · simp only [gossipOuts, if_neg hne] at he
      simp only [List.map_cons, List.mem_cons]
      exact Or.inr (ih c e he)

/-- One tick emits, for each tracked neighbor (under unique keys), exactly one
`sync` envelope carrying its entire pending list when that list is non-empty,
and no envelope at all when it is empty. -/
theorem gossipOuts_filter (my_id : String) (c : Nat) (nodes : NodeMap)
    (hnd : (nodes.map Prod.fst).Nodup) (N : String) (rn : RemoteNode)
    (hget : assocGet nodes N = some rn) :
    ∃ mid, (gossipOuts my_id c nodes).2.filter (fun e => decide (e.destination = N)) =
      if rn.unacknowledged_messages.isEmpty then []
      else [Envelope.new my_id N
        { msg_id := some mid, in_reply_to := none,
          message := .Sync rn.unacknowledged_messages }] := by
  induction nodes generalizing c with
  | nil => simp [assocGet] at hget
  | cons p rest ih =>
    obtain ⟨k, node⟩ := p
    rw [List.map_cons, List.nodup_cons] at hnd
    by_cases hkN : k = N
    · subst hkN
      have hrn : node = rn := by simpa [assocGet] using hget
      subst hrn
      have hrest : (gossipOuts my_id (c + 1) rest).2.filter
          (fun e => decide (e.destination = k)) = [] := by
        rw [List.filter_eq_nil_iff]
        intro e he
        have hdest := gossipOuts_dest_mem my_id (c + 1) rest e he
        simp only [decide_eq_true_eq]
        intro hek
        rw [hek] at hdest
        exact hnd.1 hdest
      have hrest0 : (gossipOuts my_id c rest).2.filter
          (fun e => decide (e.destination = k)) = [] := by
        rw [List.filter_eq_nil_iff]
        intro e he
        have hdest := gossipOuts_dest_mem my_id c rest e he
        simp only [decide_eq_true_eq]
        intro hek
        rw [hek] at hdest
        exact hnd.1 hdest
      by_cases hne : node.has_unacknowledged_messages
      · refine ⟨c, ?_⟩
        have hemp : node.unacknowledged_messages.isEmpty = false := by
          simpa [RemoteNode.has_unacknowledged_messages] using hne
        simp [gossipOuts, hne, List.filter_cons, Envelope.new, hrest, hemp]
      · refine ⟨c, ?_⟩
        have hemp : node.unacknowledged_messages.isEmpty = true := by
          simpa [RemoteNode.has_unacknowledged_messages] using hne
        simp [gossipOuts, hne, hrest0, hemp]
    · have hget' : assocGet rest N = some rn := by
        simpa [assocGet, hkN] using hget
      by_cases hne : node.has_unacknowledged_messages
      · obtain ⟨mid, hmid⟩ := ih (c + 1) hnd.2 hget'
        refine ⟨mid, ?_⟩
        simp only [gossipOuts, if_pos hne, List.filter_cons]
        rw [show (decide ((Envelope.new my_id k
            { msg_id := some c, in_reply_to := none,
              message := Payload.Sync node.unacknowledged_messages }).destination = N))
            = false by simp [Envelope.new, hkN]]
        simpa using hmid
      · obtain ⟨mid, hmid⟩ := ih c hnd.2 hget'
        refine ⟨mid, ?_⟩
        simp only [gossipOuts, if_neg hne]
        exact hmid

/-! ## Helper lemmas: message ids -/

/-- The outbound envelopes of the handler: either none at all (with the
counter untouched) or a single reply built by `reply_with` from one fresh id
(with the counter advanced past it). -/
theorem handle_outs_shape (c : Nat) (st : State) (env : Envelope Payload)
    (c' : Nat) (st' : State) (outs : List (Envelope Payload))
    (h : handle_envelope c st env = some (c', st', outs)) :
    (outs = [] ∧ c' = c) ∨
      ∃ pl, outs = [env.reply_with (some c) pl] ∧ c' = c + 1 := by
  obtain ⟨src, dst, mid, irt, pl⟩ := env
  cases pl with
  | Init node_id node_ids =>
    simp only [handle_envelope, Option.some.injEq, Prod.mk.injEq] at h
    exact Or.inr ⟨.InitOk, h.2.2.symm, h.1.symm⟩
  | Topology tmap =>
    simp only [handle_envelope] at h
    cases hpos : position st.all_node_ids st.my_id with
    | none => simp [hpos] at h
    | some p =>
      simp only [hpos] at h
      by_cases hz : st.stride = 0
      · simp [if_pos hz] at h
      · simp only [if_neg hz, Option.some.injEq, Prod.mk.injEq] at h
        exact Or.inr ⟨.TopologyOk, h.2.2.symm, h.1.symm⟩
  | Broadcast message =>
    simp only [handle_envelope] at h
    by_cases hmem : message ∈ st.messages
    · simp only [if_pos hmem, Option.some.injEq, Prod.mk.injEq] at h
      exact Or.inr ⟨.BroadcastOk, h.2.2.symm, h.1.symm⟩
    · simp only [if_neg hmem] at h
      cases hsend : sendToNeighbors st.nodes st.neighbors message with
      | none => simp [hsend] at h
      | some nodes' =>
        simp only [hsend, Option.some.injEq, Prod.mk.injEq] at h
        exact Or.inr ⟨.BroadcastOk, h.2.2.symm, h.1.symm⟩
  | Read =>
    simp only [handle_envelope, Option.some.injEq, Prod.mk.injEq] at h
    exact Or.inr ⟨.ReadOk st.seen_messages, h.2.2.symm, h.1.symm⟩
  | Sync inbound =>
    simp only [handle_envelope] at h
    cases hf : syncFold st inbound with
    | none => simp [hf] at h
    | some st₂ =>
      simp only [hf, Option.some.injEq, Prod.mk.injEq] at h
      exact Or.inr ⟨.SyncOk inbound, h.2.2.symm, h.1.symm⟩
  | SyncOk acked =>
    simp only [handle_envelope] at h
    cases hm : assocModify st.nodes src (fun rn => rn.acknowledge_synced acked) with
    | none => simp [hm] at h
    | some nodes' =>
      simp only [hm, Option.some.injEq, Prod.mk.injEq] at h
      exact Or.inl ⟨h.2.2.symm, h.1.symm⟩
  | InitOk =>
    simp only [handle_envelope, Option.some.injEq, Prod.mk.injEq] at h
    exact Or.inl ⟨h.2.2.symm, h.1.symm⟩
  | BroadcastOk =>
    simp only [handle_envelope, Option.some.injEq, Prod.mk.injEq] at h
    exact Or.inl ⟨h.2.2.symm, h.1.symm⟩
  | TopologyOk =>
    simp only [handle_envelope, Option.some.injEq, Prod.mk.injEq] at h
    exact Or.inl ⟨h.2.2.symm, h.1.symm⟩
  | ReadOk msgs =>
    simp only [handle_envelope, Option.some.injEq, Prod.mk.injEq] at h
    exact Or.inl ⟨h.2.2.symm, h.1.symm⟩

/-- The ids drawn by one tick: strictly increasing and confined to the
half-open counter interval of the tick. -/
theorem gossipOuts_ids (my_id : String) (c : Nat) (nodes : NodeMap) :
    c ≤ (gossipOuts my_id c nodes).1 ∧
      ((gossipOuts my_id c nodes).2.filterMap (fun e => e.body.msg_id)).Pairwise (· < ·) ∧
      ∀ i ∈ (gossipOuts my_id c nodes).2.filterMap (fun e => e.body.msg_id),
        c ≤ i ∧ i < (gossipOuts my_id c nodes).1 := by
  induction nodes generalizing c with
  | nil => simp [gossipOuts]
  | cons p rest ih =>
    obtain ⟨neighbor, node⟩ := p
    by_cases hne : node.has_unacknowledged_messages
    · obtain ⟨ihle, ihpw, ihbound⟩ := ih (c + 1)
      simp only [gossipOuts, if_pos hne, List.filterMap_cons, Envelope.new]
      refine ⟨by omega, ?_, ?_⟩
      · rw [List.pairwise_cons]
        exact ⟨fun i hi => (ihbound i hi).1, ihpw⟩
      · intro i hi
        rcases List.mem_cons.mp hi with rfl | hi'
        · exact ⟨le_refl _, by have := ihle; omega⟩
        · have := ihbound i hi'
          omega
    · simpa [gossipOuts, if_neg hne] using ih c

/-- The ids drawn by one step (inbound envelope or tick): strictly increasing
and confined to the step's counter interval. -/
theorem stepRun_ids (c : Nat) (st : State) (s : Step) (c' : Nat) (st' : State)
    (outs : List (Envelope Payload)) (h : stepRun c st s = some (c', st', outs)) :
    c ≤ c' ∧ (outs.filterMap (fun e => e.body.msg_id)).Pairwise (· < ·) ∧
      ∀ i ∈ outs.filterMap (fun e => e.body.msg_id), c ≤ i ∧ i < c' := by
  cases s with
  | inbound env =>
    simp only [stepRun] at h
    rcases handle_outs_shape c st env c' st' outs h with ⟨houts, hc⟩ | ⟨pl, houts, hc⟩
    · subst houts hc
      simp
    · subst houts hc
      simp only [List.filterMap_cons, Envelope.reply_with, List.filterMap_nil]
      refine ⟨by omega, List.pairwise_singleton .., ?_⟩
      intro i hi
      simp only [List.mem_singleton] at hi
      omega
  | tick =>
    simp only [stepRun, gossipTick, Option.some.injEq, Prod.mk.injEq] at h
    obtain ⟨hc, hst, houts⟩ := h
    obtain ⟨hle, hpw, hbound⟩ := gossipOuts_ids st.my_id c st.nodes
    subst hc
    rw [← houts]
    exact ⟨hle, hpw, hbound⟩

/-- The ids drawn along a whole trace: strictly increasing and confined to
the trace's counter interval. -/
theorem runTrace_ids (c : Nat) (st : State) (steps : List Step) (c' : Nat)
    (st' : State) (outs : List (Envelope Payload))
    (h : runTrace c st steps = some (c', st', outs)) :
    c ≤ c' ∧ (outs.filterMap (fun e => e.body.msg_id)).Pairwise (· < ·) ∧
      ∀ i ∈ outs.filterMap (fun e => e.body.msg_id), c ≤ i ∧ i < c' := by
  induction steps generalizing c st outs with
  | nil =>
    simp only [runTrace, Option.some.injEq, Prod.mk.injEq] at h
    obtain ⟨hc, _, houts⟩ := h
    subst hc
    rw [← houts]
    simp
  | cons s rest ih =>
    simp only [runTrace] at h
    cases hs : stepRun c st s with
    | none => simp [hs] at h
    | some r =>
      obtain ⟨c₁, st₁, outs₁⟩ := r
      simp only [hs] at h
      cases hr : runTrace c₁ st₁ rest with
      | none => simp [hr] at h
      | some r₂ =>
        obtain ⟨c₂, st₂, outs₂⟩ := r₂
        simp only [hr, Option.some.injEq, Prod.mk.injEq] at h
        obtain ⟨hc, hst, houts⟩ := h
        subst hc
        subst hst
        rw [← houts]
        obtain ⟨hle₁, hpw₁, hb₁⟩ := stepRun_ids c st s c₁ st₁ outs₁ hs
        obtain ⟨hle₂, hpw₂, hb₂⟩ := ih c₁ st₁ outs₂ hr
        rw [List.filterMap_append]
        refine ⟨by omega, ?_, ?_⟩
        · rw [List.pairwise_append]
          refine ⟨hpw₁, hpw₂, ?_⟩
          intro a ha b hb
          have := (hb₁ a ha).2
          have := (hb₂ b hb).1
          omega
        · intro i hi
          rcases List.mem_append.mp hi with hi' | hi'
          · have := hb₁ i hi'
            omega
          · have := hb₂ i hi'
            omega

/-- Reduction of the handler on a topology envelope when the node's position
is found and the stride is positive. -/
theorem handle_topology_eq (c : Nat) (st : State) (src dst : String)
    (mid irt : Option Nat) (tmap : List (String × List String)) (p : Nat)
    (hpos : position st.all_node_ids st.my_id = some p) (hz : ¬ st.stride = 0) :
    handle_envelope c st ⟨src, dst, ⟨mid, irt, .Topology tmap⟩⟩ =
      some (c + 1,
        { st with
          neighbors := stepBy st.stride (st.all_node_ids.drop ((p + 1) % st.stride))
          nodes := (stepBy st.stride (st.all_node_ids.drop ((p + 1) % st.stride))).foldl
            (fun m neighbor => assocInsert m neighbor RemoteNode.default) st.nodes },
        [Envelope.reply_with ⟨src, dst, ⟨mid, irt, .Topology tmap⟩⟩
          (some c) .TopologyOk]) := by
  simp [handle_envelope, hpos, hz]

/-! ## The claims -/

/-- C1: for a membership list `L` of size `n`, this node's (unique) index `p`
in `L`, and a positive stride `s`, the neighbor set derived by handling a
topology message is exactly `{ L[i] : 0 ≤ i < n, i % s = (p+1) % s }`, and
the handler's whole result is independent of the `topology` map carried by
the message. -/
theorem topology_neighbor_set (c : Nat) (st : State) (src dst : String)
    (mid irt : Option Nat) (tmap tmap2 : List (String × List String)) (p : Nat)
    (hs : 0 < st.stride)
    (hp : st.all_node_ids[p]? = some st.my_id)
    (hu : ∀ i, st.all_node_ids[i]? = some st.my_id → i = p) :
    ∃ st' outs,
      handle_envelope c st ⟨src, dst, ⟨mid, irt, .Topology tmap⟩⟩ =
        some (c + 1, st', outs) ∧
      (∀ x, x ∈ st'.neighbors ↔
        ∃ i, i % st.stride = (p + 1) % st.stride ∧ st.all_node_ids[i]? = some x) ∧
      handle_envelope c st ⟨src, dst, ⟨mid, irt, .Topology tmap2⟩⟩ =
        handle_envelope c st ⟨src, dst, ⟨mid, irt, .Topology tmap⟩⟩ := by
  have hpos := position_eq_some_of_unique st.all_node_ids st.my_id p hp hu
  have hz : ¬ st.stride = 0 := by omega
  refine ⟨_, _, handle_topology_eq c st src dst mid irt tmap p hpos hz, ?_, ?_⟩
  · intro x
    exact mem_stepBy_drop st.stride ((p + 1) % st.stride) hs
      (Nat.mod_lt (p + 1) hs) st.all_node_ids x
  · rw [handle_topology_eq c st src dst mid irt tmap2 p hpos hz,
      handle_topology_eq c st src dst mid irt tmap p hpos hz]
    simp [Envelope.reply_with]

/-- C1 witness: membership `[n0..n4]`, node `n1` (index 1), stride 2: the
derived neighbor set is the even-index class, whatever the topology map
says. -/
theorem topology_neighbor_set_witness :
    (0 : Nat) <
      (⟨"n1", ["n0", "n1", "n2", "n3", "n4"], [], [], [], 2, 0⟩ : State).stride ∧
    ∃ st' outs,
      handle_envelope 0 ⟨"n1", ["n0", "n1", "n2", "n3", "n4"], [], [], [], 2, 0⟩
          ⟨"c1", "n1", ⟨some 7, none, .Topology [("n1", ["n0"])]⟩⟩ =
        some (0 + 1, st', outs) ∧
      (∀ x, x ∈ st'.neighbors ↔
        ∃ i, i % 2 = (1 + 1) % 2 ∧
          (["n0", "n1", "n2", "n3", "n4"] : List String)[i]? = some x) ∧
      handle_envelope 0 ⟨"n1", ["n0", "n1", "n2", "n3", "n4"], [], [], [], 2, 0⟩
          ⟨"c1", "n1", ⟨some 7, none, .Topology []⟩⟩ =
        handle_envelope 0 ⟨"n1", ["n0", "n1", "n2", "n3", "n4"], [], [], [], 2, 0⟩
          ⟨"c1", "n1", ⟨some 7, none, .Topology [("n1", ["n0"])]⟩⟩ := by
  refine ⟨by decide, ?_⟩
  exact topology_neighbor_set 0
    ⟨"n1", ["n0", "n1", "n2", "n3", "n4"], [], [], [], 2, 0⟩
    "c1" "n1" (some 7) none [("n1", ["n0"])] [] 1 (by decide) (by decide)
    (by
      intro i hi
      match i with
      | 0 => exact absurd hi (by decide)
      | 1 => rfl
      | 2 => exact absurd hi (by decide)
      | 3 => exact absurd hi (by decide)
      | 4 => exact absurd hi (by decide)
      | (n + 5) =>
        rw [List.getElem?_eq_none
          (by simp only [List.length_cons, List.length_nil]; omega)] at hi
        exact absurd hi (by simp))

/-- C4 counterexample: membership `[n0, n1]`, node `n0` (index 0),
stride 1: the derived neighbor set is `[n0, n1]`, which contains the node
itself, `L[0] = n0` — not "all nodes other than this node". -/
theorem stride_one_self_neighbor_cex :
    handle_envelope 0 ⟨"n0", ["n0", "n1"], [], [], [], 1, 0⟩
        ⟨"c1", "n0", ⟨some 1, none, .Topology []⟩⟩ =
      some (1, ⟨"n0", ["n0", "n1"], ["n0", "n1"],
        [("n0", ⟨"", []⟩), ("n1", ⟨"", []⟩)], [], 1, 0⟩,
        [⟨"n0", "c1", ⟨some 0, some 1, .TopologyOk⟩⟩]) ∧
    "n0" ∈ (["n0", "n1"] : List String) ∧
    (["n0", "n1"] : List String)[0]? = some "n0" := by
  refine ⟨by decide, by decide, by decide⟩

/-- C4 (amended): with stride 1, the derived neighbor set equals the whole
membership list — every node, *including* this node itself. -/
theorem stride_one_neighbors_all (c : Nat) (st : State) (src dst : String)
    (mid irt : Option Nat) (tmap : List (String × List String)) (p : Nat)
    (hs : st.stride = 1)
    (hpos : position st.all_node_ids st.my_id = some p) :
    ∃ st' outs,
      handle_envelope c st ⟨src, dst, ⟨mid, irt, .Topology tmap⟩⟩ =
        some (c + 1, st', outs) ∧
      st'.neighbors = st.all_node_ids := by
  have hz : ¬ st.stride = 0 := by omega
  refine ⟨_, _, handle_topology_eq c st src dst mid irt tmap p hpos hz, ?_⟩
  show stepBy st.stride (st.all_node_ids.drop ((p + 1) % st.stride)) = st.all_node_ids
  rw [hs, Nat.mod_one, List.drop_zero, stepBy_one]

/-- C4 (amended) witness: on `[n0, n1]` with stride 1, node `n0` derives the
full membership list as its neighbor set. -/
theorem stride_one_neighbors_all_witness :
    (⟨"n0", ["n0", "n1"], [], [], [], 1, 0⟩ : State).stride = 1 ∧
    position ["n0", "n1"] "n0" = some 0 ∧
    ∃ st' outs,
      handle_envelope 0 ⟨"n0", ["n0", "n1"], [], [], [], 1, 0⟩
          ⟨"c1", "n0", ⟨some 1, none, .Topology []⟩⟩ = some (0 + 1, st', outs) ∧
      st'.neighbors = ["n0", "n1"] := by
  refine ⟨by decide, by decide, ?_⟩
  exact stride_one_neighbors_all 0 ⟨"n0", ["n0", "n1"], [], [], [], 1, 0⟩
    "c1" "n0" (some 1) none [] 0 (by decide) (by decide)

/-- C2 counterexample: a node tracking neighbor `n1` with pending entry `5`
handles a (re-delivered) topology message; the handler succeeds and `n1`'s
pending queue comes out empty — the entry was discarded by an operation that
is not a `sync_ok` from `n1`. -/
theorem pending_cleared_by_topology_cex :
    assocGet [("n1", ⟨"", [5]⟩)] "n1" = some ⟨"", [5]⟩ ∧
    handle_envelope 0 ⟨"n0", ["n0", "n1"], ["n1"], [("n1", ⟨"", [5]⟩)], [5], 2, 0⟩
        ⟨"c1", "n0", ⟨some 1, none, .Topology []⟩⟩ =
      some (1, ⟨"n0", ["n0", "n1"], ["n1"], [("n1", ⟨"", []⟩)], [5], 2, 0⟩,
        [⟨"n0", "c1", ⟨some 0, some 1, .TopologyOk⟩⟩]) ∧
    assocGet [("n1", ⟨"", []⟩)] "n1" = some ⟨"", []⟩ := by
  refine ⟨by decide, by decide, by decide⟩

/-- C2 (amended): an entry leaves a tracked neighbor `N`'s PeerPending only
by handling a `sync_ok` whose source is `N` and whose message list contains
the entry, or by handling a topology message, which resets every derived
neighbor's pending queue to empty. -/
theorem pending_removal_only (c c' : Nat) (st st' : State) (env : Envelope Payload)
    (outs : List (Envelope Payload)) (N : String) (rn rn' : RemoteNode) (x : Nat)
    (h : handle_envelope c st env = some (c', st', outs))
    (hN : assocGet st.nodes N = some rn)
    (hN' : assocGet st'.nodes N = some rn')
    (hx : x ∈ rn.unacknowledged_messages)
    (hx' : x ∉ rn'.unacknowledged_messages) :
    (∃ tmap, env.body.message = .Topology tmap) ∨
      (∃ msgs, env.body.message = .SyncOk msgs ∧ env.source = N ∧ x ∈ msgs) := by
  obtain ⟨src, dst, mid, irt, pl⟩ := env
  cases pl with
  | Init node_id node_ids =>
    exfalso
    simp only [handle_envelope, Option.some.injEq, Prod.mk.injEq] at h
    obtain ⟨-, hst, -⟩ := h
    have hnodes : st'.nodes = st.nodes := by rw [← hst]
    rw [hnodes, hN] at hN'
    obtain rfl := Option.some.inj hN'
    exact hx' hx
  | Topology tmap => exact Or.inl ⟨tmap, rfl⟩
  | Broadcast message =>
    exfalso
    simp only [handle_envelope] at h
    by_cases hmem : message ∈ st.messages
    · simp only [if_pos hmem, Option.some.injEq, Prod.mk.injEq] at h
      obtain ⟨-, hst, -⟩ := h
      have hnodes : st'.nodes = st.nodes := by rw [← hst]
      rw [hnodes, hN] at hN'
      obtain rfl := Option.some.inj hN'
      exact hx' hx
    · simp only [if_neg hmem] at h
      cases hsend : sendToNeighbors st.nodes st.neighbors message with
      | none => simp [hsend] at h
      | some nodes' =>
        simp only [hsend, Option.some.injEq, Prod.mk.injEq] at h
        obtain ⟨-, hst, -⟩ := h
        have hnodes : st'.nodes = nodes' := by rw [← hst]
        obtain ⟨rn₂, hg₂, hsub⟩ :=
          sendToNeighbors_get st.neighbors st.nodes nodes' message hsend N rn hN
        rw [hnodes, hg₂] at hN'
        obtain rfl := Option.some.inj hN'
        exact hx' (hsub x hx)
  | Read =>
    exfalso
    simp only [handle_envelope, Option.some.injEq, Prod.mk.injEq] at h
    obtain ⟨-, hst, -⟩ := h
    have hnodes : st'.nodes = st.nodes := by rw [← hst]
    rw [hnodes, hN] at hN'
    obtain rfl := Option.some.inj hN'
    exact hx' hx
  | Sync inbound =>
    exfalso
    simp only [handle_envelope] at h
    cases hf : syncFold st inbound with
    | none => simp [hf] at h
    | some st₂ =>
      simp only [hf, Option.some.injEq, Prod.mk.injEq] at h
      obtain ⟨-, hst, -⟩ := h
      obtain ⟨rn₂, hg₂, hsub⟩ := syncFold_nodes_get st st₂ inbound hf N rn hN
      rw [hst] at hg₂
      rw [hg₂] at hN'
      obtain rfl := Option.some.inj hN'
      exact hx' (hsub x hx)
  | SyncOk acked =>
    simp only [handle_envelope] at h
    cases hm : assocModify st.nodes src (fun rn => rn.acknowledge_synced acked) with
    | none => simp [hm] at h
    | some nodes' =>
      simp only [hm, Option.some.injEq, Prod.mk.injEq] at h
      obtain ⟨-, hst, -⟩ := h
      have hnodes : st'.nodes = nodes' := by rw [← hst]
      have hget' := assocModify_get_some st.nodes nodes' src _ hm N rn hN
      rw [hnodes, hget'] at hN'
      obtain rfl := Option.some.inj hN'
      by_cases hNs : N = src
      · rw [if_pos hNs] at hx'
        refine Or.inr ⟨acked, rfl, hNs.symm, ?_⟩
        by_contra hxa
        exact hx' (by
          simp only [RemoteNode.acknowledge_synced, List.mem_filter, decide_eq_true_eq]
          exact ⟨hx, hxa⟩)
      · rw [if_neg hNs] at hx'
        exact absurd hx hx'
  | InitOk =>
    exfalso
    simp only [handle_envelope, Option.some.injEq, Prod.mk.injEq] at h
    obtain ⟨-, hst, -⟩ := h
    have hnodes : st'.nodes = st.nodes := by rw [← hst]
    rw [hnodes, hN] at hN'
    obtain rfl := Option.some.inj hN'
    exact hx' hx
  | BroadcastOk =>
    exfalso
    simp only [handle_envelope, Option.some.injEq, Prod.mk.injEq] at h
    obtain ⟨-, hst, -⟩ := h
    have hnodes : st'.nodes = st.nodes := by rw [← hst]
    rw [hnodes, hN] at hN'
    obtain rfl := Option.some.inj hN'
    exact hx' hx
  | TopologyOk =>
    exfalso
    simp only [handle_envelope, Option.some.injEq, Prod.mk.injEq] at h
    obtain ⟨-, hst, -⟩ := h
    have hnodes : st'.nodes = st.nodes := by rw [← hst]
    rw [hnodes, hN] at hN'
    obtain rfl := Option.some.inj hN'
    exact hx' hx
  | ReadOk msgs =>
    exfalso
    simp only [handle_envelope, Option.some.injEq, Prod.mk.injEq] at h
    obtain ⟨-, hst, -⟩ := h
    have hnodes : st'.nodes = st.nodes := by rw [← hst]
    rw [hnodes, hN] at hN'
    obtain rfl := Option.some.inj hN'
    exact hx' hx

/-- C2 (amended) witness: a `sync_ok` from neighbor `n1` acknowledging `5`
removes the entry, and the theorem attributes the removal to exactly that
`sync_ok`. -/
theorem pending_removal_only_witness :
    (∃ tmap, (Payload.SyncOk [5]) = .Topology tmap) ∨
      (∃ msgs, (Payload.SyncOk [5]) = .SyncOk msgs ∧ "n1" = "n1" ∧ 5 ∈ msgs) := by
  exact pending_removal_only 0 0
    ⟨"n0", ["n0", "n1"], ["n1"], [("n1", ⟨"", [5]⟩)], [5], 2, 0⟩
    ⟨"n0", ["n0", "n1"], ["n1"], [("n1", ⟨"", []⟩)], [5], 2, 0⟩
    ⟨"n1", "n0", ⟨none, none, .SyncOk [5]⟩⟩ [] "n1" ⟨"", [5]⟩ ⟨"", []⟩ 5
    (by decide) (by decide) (by decide) (by decide) (by decide)

/-- C3: delivering the same `sync{messages = M}` envelope a second time
returns exactly the state produced by the first delivery — same ValueSet,
same per-neighbor pending queues; the second delivery inserts nothing and
appends nothing. -/
theorem sync_idempotent (c₁ c₁' c₂ : Nat) (st st₁ : State) (env : Envelope Payload)
    (M : List Nat) (outs₁ : List (Envelope Payload))
    (henv : env.body.message = .Sync M)
    (h : handle_envelope c₁ st env = some (c₁', st₁, outs₁)) :
    handle_envelope c₂ st₁ env =
      some (c₂ + 1, st₁, [env.reply_with (some c₂) (.SyncOk M)]) := by
  obtain ⟨src, dst, mid, irt, pl⟩ := env
  have hpl : pl = .Sync M := henv
  subst hpl
  simp only [handle_envelope] at h ⊢
  cases hf : syncFold st M with
  | none => simp [hf] at h
  | some st₂ =>
    simp only [hf, Option.some.injEq, Prod.mk.injEq] at h
    obtain ⟨-, hst, -⟩ := h
    subst hst
    have hmem : ∀ m ∈ M, m ∈ st₂.messages := (syncFold_messages st st₂ M hf).2.1
    simp [syncFold_id st₂ M hmem]

/-- C3 witness: a node that has just absorbed `sync{[7, 8]}` absorbs it a
second time with no change at all to its state. -/
theorem sync_idempotent_witness :
    handle_envelope 5
        ⟨"n0", ["n0", "n1"], ["n1"], [("n1", ⟨"", [7, 8]⟩)], [7, 8], 2, 0⟩
        ⟨"n9", "n0", ⟨some 4, none, .Sync [7, 8]⟩⟩ =
      some (5 + 1,
        ⟨"n0", ["n0", "n1"], ["n1"], [("n1", ⟨"", [7, 8]⟩)], [7, 8], 2, 0⟩,
        [Envelope.reply_with ⟨"n9", "n0", ⟨some 4, none, .Sync [7, 8]⟩⟩
          (some 5) (.SyncOk [7, 8])]) := by
  exact sync_idempotent 0 1 5
    ⟨"n0", ["n0", "n1"], ["n1"], [("n1", ⟨"", []⟩)], [], 2, 0⟩
    ⟨"n0", ["n0", "n1"], ["n1"], [("n1", ⟨"", [7, 8]⟩)], [7, 8], 2, 0⟩
    ⟨"n9", "n0", ⟨some 4, none, .Sync [7, 8]⟩⟩ [7, 8]
    [⟨"n0", "n9", ⟨some 0, some 4, .SyncOk [7, 8]⟩⟩] rfl (by decide)

/-- C5: the ValueSet is monotone non-decreasing — for every inbound envelope
of any payload kind, every value known before the handler runs is still
known after it completes. -/
theorem valueset_monotone (c c' : Nat) (st st' : State) (env : Envelope Payload)
    (outs : List (Envelope Payload))
    (h : handle_envelope c st env = some (c', st', outs)) :
    ∀ m ∈ st.messages, m ∈ st'.messages := by
  obtain ⟨src, dst, mid, irt, pl⟩ := env
  cases pl with
  | Init node_id node_ids =>
    simp only [handle_envelope, Option.some.injEq, Prod.mk.injEq] at h
    obtain ⟨-, hst, -⟩ := h
    intro m hm
    rw [← hst]
    exact hm
  | Topology tmap =>
    simp only [handle_envelope] at h
    cases hpos : position st.all_node_ids st.my_id with
    | none => simp [hpos] at h
    | some p =>
      simp only [hpos] at h
      by_cases hz : st.stride = 0
      · simp [if_pos hz] at h
      · simp only [if_neg hz, Option.some.injEq, Prod.mk.injEq] at h
        obtain ⟨-, hst, -⟩ := h
        intro m hm
        rw [← hst]
        exact hm
  | Broadcast message =>
    simp only [handle_envelope] at h
    by_cases hmem : message ∈ st.messages
    · simp only [if_pos hmem, Option.some.injEq, Prod.mk.injEq] at h
      obtain ⟨-, hst, -⟩ := h
      intro m hm
      rw [← hst]
      exact hm
    · simp only [if_neg hmem] at h
      cases hsend : sendToNeighbors st.nodes st.neighbors message with
      | none => simp [hsend] at h
      | some nodes' =>
        simp only [hsend, Option.some.injEq, Prod.mk.injEq] at h
        obtain ⟨-, hst, -⟩ := h
        intro m hm
        rw [← hst]
        exact List.mem_append.mpr (Or.inl hm)
  | Read =>
    simp only [handle_envelope, Option.some.injEq, Prod.mk.injEq] at h
    obtain ⟨-, hst, -⟩ := h
    intro m hm
    rw [← hst]
    exact hm
  | Sync inbound =>
    simp only [handle_envelope] at h
    cases hf : syncFold st inbound with
    | none => simp [hf] at h
    | some st₂ =>
      simp only [hf, Option.some.injEq, Prod.mk.injEq] at h
      obtain ⟨-, hst, -⟩ := h
      intro m hm
      rw [← hst]
      exact (syncFold_messages st st₂ inbound hf).1 m hm
  | SyncOk acked =>
    simp only [handle_envelope] at h
    cases hm : assocModify st.nodes src (fun rn => rn.acknowledge_synced acked) with
    | none => simp [hm] at h
    | some nodes' =>
      simp only [hm, Option.some.injEq, Prod.mk.injEq] at h
      obtain ⟨-, hst, -⟩ := h
      intro m hmem
      rw [← hst]
      exact hmem
  | InitOk =>
    simp only [handle_envelope, Option.some.injEq, Prod.mk.injEq] at h
    obtain ⟨-, hst, -⟩ := h
    intro m hm
    rw [← hst]
    exact hm
  | BroadcastOk =>
    simp only [handle_envelope, Option.some.injEq, Prod.mk.injEq] at h
    obtain ⟨-, hst, -⟩ := h
    intro m hm
    rw [← hst]
    exact hm
  | TopologyOk =>
    simp only [handle_envelope, Option.some.injEq, Prod.mk.injEq] at h
    obtain ⟨-, hst, -⟩ := h
    intro m hm
    rw [← hst]
    exact hm
  | ReadOk msgs =>
    simp only [handle_envelope, Option.some.injEq, Prod.mk.injEq] at h
    obtain ⟨-, hst, -⟩ := h
    intro m hm
    rw [← hst]
    exact hm

/-- C5 witness: broadcasting `4` to a node that knows `[3]` keeps `3`
known. -/
theorem valueset_monotone_witness :
    3 ∈ (⟨"n0", ["n0"], [], [], [3], 1, 0⟩ : State).messages ∧
    3 ∈ (⟨"n0", ["n0"], [], [], [3, 4], 1, 0⟩ : State).messages := by
  have h : handle_envelope 0 ⟨"n0", ["n0"], [], [], [3], 1, 0⟩
      ⟨"c1", "n0", ⟨some 2, none, .Broadcast 4⟩⟩ =
    some (1, ⟨"n0", ["n0"], [], [], [3, 4], 1, 0⟩,
      [⟨"n0", "c1", ⟨some 0, some 2, .BroadcastOk⟩⟩]) := by decide
  exact ⟨by decide, valueset_monotone 0 1 _ _ _ _ h 3 (by decide)⟩

/-- C7: the reply to an inbound `sync{messages = M}` is a `sync_ok` whose
message list is exactly `M` — same elements, same order, duplicates
included — independent of the ValueSet and pending state. -/
theorem sync_reply_echo (c c' : Nat) (st st' : State) (env : Envelope Payload)
    (M : List Nat) (outs : List (Envelope Payload))
    (henv : env.body.message = .Sync M)
    (h : handle_envelope c st env = some (c', st', outs)) :
    outs = [env.reply_with (some c) (.SyncOk M)] := by
  obtain ⟨src, dst, mid, irt, pl⟩ := env
  have hpl : pl = .Sync M := henv
  subst hpl
  simp only [handle_envelope] at h
  cases hf : syncFold st M with
  | none => simp [hf] at h
  | some st₂ =>
    simp only [hf, Option.some.injEq, Prod.mk.injEq] at h
    exact h.2.2.symm

/-- C7 witness: a node that already knows `7` still echoes the duplicated
list `[7, 7]` verbatim in its `sync_ok`. -/
theorem sync_reply_echo_witness :
    [(⟨"n0", "n9", ⟨some 0, some 4, Payload.SyncOk [7, 7]⟩⟩ : Envelope Payload)] =
      [Envelope.reply_with ⟨"n9", "n0", ⟨some 4, none, .Sync [7, 7]⟩⟩
        (some 0) (.SyncOk [7, 7])] := by
  exact sync_reply_echo 0 1 ⟨"n0", [], [], [], [7], 1, 0⟩ ⟨"n0", [], [], [], [7], 1, 0⟩
    ⟨"n9", "n0", ⟨some 4, none, .Sync [7, 7]⟩⟩ [7, 7]
    [⟨"n0", "n9", ⟨some 0, some 4, .SyncOk [7, 7]⟩⟩] rfl (by decide)

/-- C6: one scheduler tick leaves every field of the node state unchanged
and emits, for every tracked neighbor with a non-empty pending queue,
exactly one `sync` envelope carrying that neighbor's entire current pending
list — and nothing at all for neighbors with an empty queue. -/
theorem gossip_tick_spec (c : Nat) (st : State)
    (hnd : (st.nodes.map Prod.fst).Nodup) :
    ∃ c' outs, gossipTick c st = (c', st, outs) ∧
      (∀ e ∈ outs, e.destination ∈ st.nodes.map Prod.fst) ∧
      ∀ N rn, assocGet st.nodes N = some rn →
        ∃ mid, outs.filter (fun e => decide (e.destination = N)) =
          (if rn.unacknowledged_messages.isEmpty then []
           else [Envelope.new st.my_id N
            { msg_id := some mid, in_reply_to := none,
              message := .Sync rn.unacknowledged_messages }]) := by
  refine ⟨(gossipOuts st.my_id c st.nodes).1, (gossipOuts st.my_id c st.nodes).2,
    rfl, gossipOuts_dest_mem st.my_id c st.nodes, ?_⟩
  intro N rn hget
  exact gossipOuts_filter st.my_id c st.nodes hnd N rn hget

/-- C6 witness: neighbors `n1` (pending `[5, 6]`), `n2` (empty), `n3`
(pending `[9]`): the tick keeps the state, sends one full-list `sync` each
to `n1` and `n3`, and nothing to `n2`. -/
theorem gossip_tick_spec_witness :
    (([("n1", (⟨"", [5, 6]⟩ : RemoteNode)), ("n2", ⟨"", []⟩),
        ("n3", ⟨"", [9]⟩)].map Prod.fst).Nodup) ∧
    ∃ c' outs,
      gossipTick 10 ⟨"n0", [], [],
          [("n1", ⟨"", [5, 6]⟩), ("n2", ⟨"", []⟩), ("n3", ⟨"", [9]⟩)],
          [5, 6, 9], 2, 0⟩ =
        (c', ⟨"n0", [], [],
          [("n1", ⟨"", [5, 6]⟩), ("n2", ⟨"", []⟩), ("n3", ⟨"", [9]⟩)],
          [5, 6, 9], 2, 0⟩, outs) ∧
      (∀ e ∈ outs, e.destination ∈
        [("n1", (⟨"", [5, 6]⟩ : RemoteNode)), ("n2", ⟨"", []⟩),
          ("n3", ⟨"", [9]⟩)].map Prod.fst) ∧
      ∀ N rn, assocGet [("n1", ⟨"", [5, 6]⟩), ("n2", ⟨"", []⟩),
          ("n3", ⟨"", [9]⟩)] N = some rn →
        ∃ mid, outs.filter (fun e => decide (e.destination = N)) =
          (if rn.unacknowledged_messages.isEmpty then []
           else [Envelope.new "n0" N
            { msg_id := some mid, in_reply_to := none,
              message := .Sync rn.unacknowledged_messages }]) := by
  refine ⟨by decide, ?_⟩
  exact gossip_tick_spec 10
    ⟨"n0", [], [], [("n1", ⟨"", [5, 6]⟩), ("n2", ⟨"", []⟩), ("n3", ⟨"", [9]⟩)],
      [5, 6, 9], 2, 0⟩ (by decide)

/-- C8: every reply the handler emits carries `in_reply_to` equal to the
request's `msg_id`, with source and destination swapped, stamped with the
current counter value; and along any trace of handler invocations and
scheduler ticks the issued message ids are strictly increasing, hence
pairwise distinct. -/
theorem reply_correlation_distinct_ids :
    (∀ (c : Nat) (st : State) (env : Envelope Payload) (c' : Nat) (st' : State)
        (outs : List (Envelope Payload)),
      handle_envelope c st env = some (c', st', outs) →
      ∀ e ∈ outs, e.body.in_reply_to = env.body.msg_id ∧
        e.source = env.destination ∧ e.destination = env.source ∧
        e.body.msg_id = some c) ∧
    ∀ (c : Nat) (st : State) (steps : List Step) (c' : Nat) (st' : State)
        (outs : List (Envelope Payload)),
      runTrace c st steps = some (c', st', outs) →
      (outs.filterMap (fun e => e.body.msg_id)).Pairwise (· < ·) := by
  constructor
  · intro c st env c' st' outs h e he
    rcases handle_outs_shape c st env c' st' outs h with ⟨houts, -⟩ | ⟨pl, houts, -⟩
    · rw [houts] at he
      cases he
    · rw [houts] at he
      rcases List.mem_singleton.mp he with rfl
      exact ⟨rfl, rfl, rfl, rfl⟩
  · intro c st steps c' st' outs h
    exact (runTrace_ids c st steps c' st' outs h).2.1

/-- C8 witness: a `read` handled at counter 5 yields a `read_ok` correlated
to `msg_id` 2 with swapped endpoints and fresh id 5; the one-step trace
issues the strictly increasing id sequence `[5]`. -/
theorem reply_correlation_distinct_ids_witness :
    ((⟨"n0", "c1", ⟨some 5, some 2, Payload.ReadOk []⟩⟩ : Envelope Payload).body.in_reply_to =
        (⟨"c1", "n0", ⟨some 2, none, Payload.Read⟩⟩ : Envelope Payload).body.msg_id ∧
      (⟨"n0", "c1", ⟨some 5, some 2, Payload.ReadOk []⟩⟩ : Envelope Payload).source =
        (⟨"c1", "n0", ⟨some 2, none, Payload.Read⟩⟩ : Envelope Payload).destination ∧
      (⟨"n0", "c1", ⟨some 5, some 2, Payload.ReadOk []⟩⟩ : Envelope Payload).destination =
        (⟨"c1", "n0", ⟨some 2, none, Payload.Read⟩⟩ : Envelope Payload).source ∧
      (⟨"n0", "c1", ⟨some 5, some 2, Payload.ReadOk []⟩⟩ : Envelope Payload).body.msg_id =
        some 5) ∧
    ([(⟨"n0", "c1", ⟨some 5, some 2, Payload.ReadOk []⟩⟩ : Envelope Payload)].filterMap
      (fun e => e.body.msg_id)).Pairwise (· < ·) := by
  constructor
  · exact reply_correlation_distinct_ids.1 5 ⟨"n0", [], [], [], [], 1, 0⟩
      ⟨"c1", "n0", ⟨some 2, none, .Read⟩⟩ 6 ⟨"n0", [], [], [], [], 1, 0⟩
      [⟨"n0", "c1", ⟨some 5, some 2, .ReadOk []⟩⟩] (by decide)
      ⟨"n0", "c1", ⟨some 5, some 2, .ReadOk []⟩⟩ (by simp)
  · exact reply_correlation_distinct_ids.2 5 ⟨"n0", [], [], [], [], 1, 0⟩
      [Step.inbound ⟨"c1", "n0", ⟨some 2, none, .Read⟩⟩] 6
      ⟨"n0", [], [], [], [], 1, 0⟩
      [⟨"n0", "c1", ⟨some 5, some 2, .ReadOk []⟩⟩] (by decide)

/-- C9: an envelope whose payload kind is none of init, topology, broadcast,
read, sync, sync_ok (e.g. `init_ok`, `broadcast_ok`, `topology_ok`,
`read_ok`) falls to the wildcard arm: the state comes back untouched, no
envelope is sent, and the id counter does not move. -/
theorem unknown_payload_ignored (c : Nat) (st : State) (env : Envelope Payload)
    (h : handledKind env.body.message = false) :
    handle_envelope c st env = some (c, st, []) := by
  obtain ⟨src, dst, mid, irt, pl⟩ := env
  cases pl <;> simp_all [handledKind, handle_envelope]

/-- C9 witness: an `init_ok` envelope is ignored outright. -/
theorem unknown_payload_ignored_witness :
    handledKind Payload.InitOk = false ∧
    handle_envelope 3 ⟨"n0", ["n0"], [], [], [4], 1, 0⟩
        ⟨"c1", "n0", ⟨some 9, none, .InitOk⟩⟩ =
      some (3, ⟨"n0", ["n0"], [], [], [4], 1, 0⟩, []) := by
  refine ⟨by decide, ?_⟩
  exact unknown_payload_ignored 3 ⟨"n0", ["n0"], [], [], [4], 1, 0⟩
    ⟨"c1", "n0", ⟨some 9, none, .InitOk⟩⟩ (by decide)

/-- C10: handling `sync_ok` is partial — it fails (the Rust `unwrap` panics)
exactly when the envelope's source is not a key of the nodes map (any sender
outside the derived neighbor set, or any sender at all before a topology
message has been handled); when the source is a tracked neighbor, the
acknowledged values are removed from precisely that neighbor's pending
queue and every other neighbor is untouched. -/
theorem syncok_known_source_only (c : Nat) (st : State) (env : Envelope Payload)
    (acked : List Nat) (henv : env.body.message = .SyncOk acked) :
    (handle_envelope c st env = none ↔ assocGet st.nodes env.source = none) ∧
    ∀ rn, assocGet st.nodes env.source = some rn →
      ∃ nodes', handle_envelope c st env = some (c, { st with nodes := nodes' }, []) ∧
        assocGet nodes' env.source = some (rn.acknowledge_synced acked) ∧
        (∀ v, v ∈ (rn.acknowledge_synced acked).unacknowledged_messages ↔
          v ∈ rn.unacknowledged_messages ∧ v ∉ acked) ∧
        ∀ N, ¬ N = env.source → assocGet nodes' N = assocGet st.nodes N := by
  obtain ⟨src, dst, mid, irt, pl⟩ := env
  have hpl : pl = .SyncOk acked := henv
  subst hpl
  cases hm : assocModify st.nodes src (fun rn => rn.acknowledge_synced acked) with
  | none =>
    have hrun : handle_envelope c st ⟨src, dst, ⟨mid, irt, .SyncOk acked⟩⟩ = none := by
      simp [handle_envelope, hm]
    have hnone : assocGet st.nodes src = none :=
      (assocModify_eq_none_iff st.nodes src _).mp hm
    refine ⟨by simp [hrun, hnone], ?_⟩
    intro rn hrn
    rw [hnone] at hrn
    cases hrn
  | some nodes' =>
    have hrun : handle_envelope c st ⟨src, dst, ⟨mid, irt, .SyncOk acked⟩⟩ =
        some (c, { st with nodes := nodes' }, []) := by
      simp [handle_envelope, hm]
    have hsome : ¬ assocGet st.nodes src = none := by
      intro hcontra
      rw [← assocModify_eq_none_iff st.nodes src
        (fun rn => rn.acknowledge_synced acked)] at hcontra
      rw [hcontra] at hm
      cases hm
    refine ⟨by simp [hrun, hsome], ?_⟩
    intro rn hrn
    refine ⟨nodes', hrun, ?_, ?_, ?_⟩
    · have hget := assocModify_get_some st.nodes nodes' src _ hm src rn hrn
      simpa using hget
    · intro v
      simp [RemoteNode.acknowledge_synced, List.mem_filter]
    · intro N hNs
      rw [assocModify_get_all st.nodes nodes' src _ hm N, if_neg hNs]

/-- C10 witness: with only `n2` tracked (pending `[5, 6]`), a `sync_ok` from
the unknown sender `zz` makes the handler fail, while a `sync_ok{[5]}` from
`n2` removes exactly `5` from `n2`'s pending queue. -/
theorem syncok_known_source_only_witness :
    handle_envelope 0 ⟨"n0", [], [], [("n2", ⟨"", [5, 6]⟩)], [5, 6], 2, 0⟩
        ⟨"zz", "n0", ⟨none, none, .SyncOk [5]⟩⟩ = none ∧
    ∃ nodes',
      handle_envelope 0 ⟨"n0", [], [], [("n2", ⟨"", [5, 6]⟩)], [5, 6], 2, 0⟩
          ⟨"n2", "n0", ⟨none, none, .SyncOk [5]⟩⟩ =
        some (0, { (⟨"n0", [], [], [("n2", ⟨"", [5, 6]⟩)], [5, 6], 2, 0⟩ : State)
            with nodes := nodes' }, []) ∧
      assocGet nodes' "n2" =
        some ((⟨"", [5, 6]⟩ : RemoteNode).acknowledge_synced [5]) ∧
      (∀ v, v ∈ ((⟨"", [5, 6]⟩ : RemoteNode).acknowledge_synced [5]).unacknowledged_messages ↔
        v ∈ [5, 6] ∧ v ∉ ([5] : List Nat)) ∧
      ∀ N, ¬ N = "n2" → assocGet nodes' N =
        assocGet [("n2", ⟨"", [5, 6]⟩)] N := by
  constructor
  · exact (syncok_known_source_only 0 ⟨"n0", [], [], [("n2", ⟨"", [5, 6]⟩)], [5, 6], 2, 0⟩
      ⟨"zz", "n0", ⟨none, none, .SyncOk [5]⟩⟩ [5] rfl).1.mpr (by decide)
  · exact (syncok_known_source_only 0 ⟨"n0", [], [], [("n2", ⟨"", [5, 6]⟩)], [5, 6], 2, 0⟩
      ⟨"n2", "n0", ⟨none, none, .SyncOk [5]⟩⟩ [5] rfl).2 ⟨"", [5, 6]⟩ (by decide)

end Maelstrom
